import Mathlib

/-!
Verification development for the skaffold configuration-schema migration
engine (pkg/skaffold/schema) and the Cloud Run deployer
(pkg/skaffold/deploy/cloudrun/deploy.go).

The schema engine itself (versions.go and the per-version upgrade packages)
is not part of the available sources; only its test file
(pkg/skaffold/schema/versions_test.go) is.  The definitions in the first
part of this file are therefore modelled from the specification
(spec.md sections 3, 4.4, 4.5, 4.6, 7), instantiated with the version
identifiers that appear in the test file.  The Cloud Run definitions in the
second part are translated directly from deploy.go.
-/

/- ## Part 1: the schema migration engine, modelled from the spec -/

/-- Modelled from the spec: the two lineages of the Version Registry
("one of exactly two disjoint, ordered sequences of Version Identifiers").
The members of the old (v1) lineage are the identifiers exercised by
versions_test.go, in registration order; `skaffold/v2beta29` stands for the
terminal identifier `latestV1.Version` of that lineage. -/
def schemaVersionsV1 : List String :=
  ["skaffold/v1alpha1", "skaffold/v1beta1", "skaffold/v2alpha1",
   "skaffold/v2beta1", "skaffold/v2beta8", "skaffold/v2beta14",
   "skaffold/v2beta29"]

/-- Modelled from the spec: the new (v2) lineage of the Version Registry;
`skaffold/v4beta1` stands for the terminal identifier `latest.Version`. -/
def schemaVersionsV2 : List String :=
  ["skaffold/v3alpha1", "skaffold/v4beta1"]

/-- The two lineages of the registry. -/
inductive Lineage where
  | v1 : Lineage
  | v2 : Lineage
deriving DecidableEq

/-- The ordered sequence of registered identifiers of a lineage
(spec 4.1, `allVersionsOf`). -/
def versionsOf : Lineage → List String
  | .v1 => schemaVersionsV1
  | .v2 => schemaVersionsV2

/-- The terminal (current/latest) identifier of a lineage
(spec 4.1, `terminalOf`). -/
def terminalOf (L : Lineage) : String :=
  (versionsOf L).getLastD ""

/-- Modelled from the spec: registry lookup over the union of both
lineages (spec 4.1, `find`), returning the owning lineage and the
position of the identifier in that lineage's registration order. -/
def findLineage (v : String) : Option (Lineage × Nat) :=
  if v ∈ schemaVersionsV1 then some (.v1, schemaVersionsV1.indexOf v)
  else if v ∈ schemaVersionsV2 then some (.v2, schemaVersionsV2.indexOf v)
  else none

/-- The identifier immediately after `v` in lineage `L`'s registration
order, if any (spec: "next(V) in that lineage"). -/
def nextInLineage (L : Lineage) (v : String) : Option String :=
  (versionsOf L).get? ((versionsOf L).indexOf v + 1)

/-- An artifact in the oldest (v1alpha1-era) document shape: the
dockerfile path is a historically-named flat field. -/
structure ArtifactOld where
  image : String
  dockerfilePath : String
deriving DecidableEq

/-- An artifact in the modern document shape: the dockerfile path lives
under the renamed `docker.dockerfile` field. -/
structure ArtifactModern where
  image : String
  dockerfile : String
deriving DecidableEq

/-- Modelled from the spec: the version-dependent body of a Versioned
Document.  The oldest registered version uses the historically-named flat
artifact fields; every later version uses the modern shape. -/
inductive Body where
  | old (arts : List ArtifactOld) : Body
  | modern (arts : List ArtifactModern) : Body
deriving DecidableEq

/-- Modelled from the spec: a Versioned Document — "an in-memory decoded
instance of exactly one version's shape" that can report its own Version
Identifier. -/
structure SkaffoldConfig where
  apiVersion : String
  body : Body
deriving DecidableEq

/-- The zero-value constructor registered for identifier `v`
(spec 3, Version Registry Entry). -/
def zeroConfig (v : String) : SkaffoldConfig :=
  ⟨v, if v = "skaffold/v1alpha1" then .old [] else .modern []⟩

/-- Errors of the single-step upgrade operation. -/
inductive UpgradeErr where
  | alreadyLatest (v : String) : UpgradeErr
  | unknown (v : String) : UpgradeErr
deriving DecidableEq

/-- Modelled from the spec: the hand-authored structural transform applied
when stepping off version `v` — stepping off the oldest version renames the
flat `dockerfilePath` artifact field into the modern nested shape; all
later steps keep the body shape. -/
def upgradeBody (v : String) (b : Body) : Body :=
  if v = "skaffold/v1alpha1" then
    match b with
    | .old arts => .modern (arts.map fun a => ⟨a.image, a.dockerfilePath⟩)
    | .modern arts => .modern arts
  else b

/-- Modelled from the spec: the single-step upgrade of a Versioned
Document (spec 3): it produces a new document at the immediate next
Version Identifier in its lineage, or fails if the document is already at
the terminal version of its lineage. -/
def upgrade (c : SkaffoldConfig) : Except UpgradeErr SkaffoldConfig :=
  match findLineage c.apiVersion with
  | none => .error (.unknown c.apiVersion)
  | some (L, i) =>
    match (versionsOf L).get? (i + 1) with
    | none => .error (.alreadyLatest c.apiVersion)
    | some v' => .ok ⟨v', upgradeBody c.apiVersion c.body⟩

/-- C2: for every registered identifier in a lineage except the terminal
one, the single-step upgrade of the zero-value document at that identifier
succeeds and reports exactly the next identifier of the lineage's
registration order. -/
theorem upgrade_zero_reaches_next (L : Lineage) (v : String)
    (hv : v ∈ versionsOf L) (hterm : v ≠ terminalOf L) :
    (upgrade (zeroConfig v)).toOption.map SkaffoldConfig.apiVersion =
      nextInLineage L v := by
  cases L <;> fin_cases hv <;> simp_all <;> rfl

theorem upgrade_zero_reaches_next_witness :
    "skaffold/v1alpha1" ∈ versionsOf Lineage.v1 ∧
    "skaffold/v1alpha1" ≠ terminalOf Lineage.v1 ∧
    (upgrade (zeroConfig "skaffold/v1alpha1")).toOption.map
        SkaffoldConfig.apiVersion =
      nextInLineage Lineage.v1 "skaffold/v1alpha1" :=
  ⟨by decide, by decide,
    upgrade_zero_reaches_next Lineage.v1 "skaffold/v1alpha1"
      (by decide) (by decide)⟩

/-- C3: invoking the single-step upgrade on any document whose identifier
is its lineage's terminal identifier always fails (it never succeeds and
never silently returns the document itself). -/
theorem upgrade_at_terminal_fails (c : SkaffoldConfig) (L : Lineage)
    (h : c.apiVersion = terminalOf L) :
    upgrade c = .error (.alreadyLatest c.apiVersion) := by
  obtain ⟨v, b⟩ := c
  simp only at h
  subst h
  cases L <;> rfl

theorem upgrade_at_terminal_fails_witness :
    (⟨terminalOf Lineage.v1, Body.modern []⟩ :
        SkaffoldConfig).apiVersion = terminalOf Lineage.v1 ∧
    upgrade ⟨terminalOf Lineage.v1, Body.modern []⟩ =
      .error (.alreadyLatest
        (⟨terminalOf Lineage.v1, Body.modern []⟩ :
          SkaffoldConfig).apiVersion) :=
  ⟨rfl, upgrade_at_terminal_fails ⟨terminalOf Lineage.v1, Body.modern []⟩
    Lineage.v1 rfl⟩

/-- Errors of the compatibility resolver's "resolve common version"
operation (spec 4.5): an unknown-version error, or an incompatibility
error enumerating the identifiers observed in each lineage group. -/
inductive CompatLatestErr where
  | unknown (v : String) : CompatLatestErr
  | incompatible (v1Group v2Group : List String) : CompatLatestErr
deriving DecidableEq

/-- Modelled from the spec: partition a batch's identifiers by lineage
membership (spec 4.5, "partition them by lineage membership of their
current Version Identifier"); an identifier registered in neither lineage
cannot be classified and yields the unknown-version error. -/
def classifyVersions : List String → Except CompatLatestErr (List String × List String)
  | [] => .ok ([], [])
  | v :: rest =>
    if v ∈ schemaVersionsV1 then
      (classifyVersions rest).map fun p => (v :: p.1, p.2)
    else if v ∈ schemaVersionsV2 then
      (classifyVersions rest).map fun p => (p.1, v :: p.2)
    else .error (.unknown v)

/-- Modelled from the spec: resolve the common upgrade target of a batch
(spec 4.5): if more than one lineage is represented, fail with the
incompatibility error carrying both observed groups; if exactly one
lineage is represented, succeed with that lineage's terminal identifier. -/
def getLatestFromCompatibilityCheck
    (cfgs : List SkaffoldConfig) : Except CompatLatestErr String :=
  match classifyVersions (cfgs.map SkaffoldConfig.apiVersion) with
  | .error e => .error e
  | .ok ([], []) => .ok (terminalOf .v1)
  | .ok ([], _ :: _) => .ok (terminalOf .v2)
  | .ok (_ :: _, []) => .ok (terminalOf .v1)
  | .ok (v :: g1, w :: g2) => .error (.incompatible (v :: g1) (w :: g2))

/-- If every identifier of `vs` belongs to the v1 lineage, classification
succeeds, putting all of `vs` (in order) in the v1 group and nothing in
the v2 group. -/
theorem classifyVersions_all_v1 (vs : List String)
    (h : ∀ v ∈ vs, v ∈ schemaVersionsV1) :
    classifyVersions vs = .ok (vs, []) := by
  induction vs with
  | nil => rfl
  | cons v rest ih =>
    have hv : v ∈ schemaVersionsV1 := h v (List.mem_cons_self v rest)
    have hrest : ∀ w ∈ rest, w ∈ schemaVersionsV1 :=
      fun w hw => h w (List.mem_cons_of_mem v hw)
    simp only [classifyVersions, if_pos hv, ih hrest, Except.map]

/-- If every identifier of `vs` belongs to the v2 lineage, classification
succeeds, putting all of `vs` (in order) in the v2 group and nothing in
the v1 group. -/
theorem classifyVersions_all_v2 (vs : List String)
    (h : ∀ v ∈ vs, v ∈ schemaVersionsV2) :
    classifyVersions vs = .ok ([], vs) := by
  induction vs with
  | nil => rfl
  | cons v rest ih =>
    have hv : v ∈ schemaVersionsV2 := h v (List.mem_cons_self v rest)
    have hrest : ∀ w ∈ rest, w ∈ schemaVersionsV2 :=
      fun w hw => h w (List.mem_cons_of_mem v hw)
    have hnot1 : v ∉ schemaVersionsV1 := by
      revert hv
      have hd : ∀ w ∈ schemaVersionsV2, w ∉ schemaVersionsV1 := by decide
      exact fun h2 => hd v h2
    simp only [classifyVersions, if_neg hnot1, if_pos hv, ih hrest,
      Except.map]

/-- C1: over a nonempty batch drawn entirely from one lineage,
`getLatestFromCompatibilityCheck` succeeds with that lineage's terminal
identifier, regardless of which versions of the lineage are present. -/
theorem getLatest_single_lineage (L : Lineage) (cfgs : List SkaffoldConfig)
    (hne : cfgs ≠ [])
    (h : ∀ c ∈ cfgs, c.apiVersion ∈ versionsOf L) :
    getLatestFromCompatibilityCheck cfgs = .ok (terminalOf L) := by
  have hall : ∀ v ∈ cfgs.map SkaffoldConfig.apiVersion, v ∈ versionsOf L := by
    intro v hv
    obtain ⟨c, hc, rfl⟩ := List.mem_map.mp hv
    exact h c hc
  have hmapne : cfgs.map SkaffoldConfig.apiVersion ≠ [] := by
    intro hmap
    exact hne (List.map_eq_nil_iff.mp hmap)
  cases L with
  | v1 =>
    unfold getLatestFromCompatibilityCheck
    rw [classifyVersions_all_v1 _ hall]
    cases hcs : cfgs.map SkaffoldConfig.apiVersion with
    | nil => exact absurd hcs hmapne
    | cons a as => simp
  | v2 =>
    unfold getLatestFromCompatibilityCheck
    rw [classifyVersions_all_v2 _ hall]
    cases hcs : cfgs.map SkaffoldConfig.apiVersion with
    | nil => exact absurd hcs hmapne
    | cons a as => simp

theorem getLatest_single_lineage_witness :
    ([⟨"skaffold/v1alpha1", Body.modern []⟩,
      ⟨"skaffold/v2beta1", Body.modern []⟩] :
        List SkaffoldConfig) ≠ [] ∧
    getLatestFromCompatibilityCheck
      [⟨"skaffold/v1alpha1", Body.modern []⟩,
       ⟨"skaffold/v2beta1", Body.modern []⟩] =
      .ok (terminalOf Lineage.v1) :=
  ⟨by decide,
   getLatest_single_lineage Lineage.v1 _ (by decide) (by decide)⟩

/-- Whether the resolved result is the incompatibility error. -/
def isIncompatibleErr : Except CompatLatestErr String → Bool
  | .error (.incompatible _ _) => true
  | _ => false

/-- Whether a batch holds identifiers of both lineages. -/
def hasBothLineages (cfgs : List SkaffoldConfig) : Bool :=
  cfgs.any (fun c => schemaVersionsV1.contains c.apiVersion) &&
    cfgs.any (fun c => schemaVersionsV2.contains c.apiVersion)

/-- If every identifier of `vs` is registered in some lineage,
classification succeeds and the two groups are exactly the identifiers
observed in each lineage, in batch order. -/
theorem classifyVersions_all_registered (vs : List String)
    (h : ∀ v ∈ vs, findLineage v ≠ none) :
    classifyVersions vs =
      .ok (vs.filter (fun v => decide (v ∈ schemaVersionsV1)),
           vs.filter (fun v => decide (v ∈ schemaVersionsV2))) := by
  induction vs with
  | nil => rfl
  | cons v rest ih =>
    have hv := h v (List.mem_cons_self v rest)
    have hrest : ∀ w ∈ rest, findLineage w ≠ none :=
      fun w hw => h w (List.mem_cons_of_mem v hw)
    by_cases h1 : v ∈ schemaVersionsV1
    · have h2 : v ∉ schemaVersionsV2 := by
        revert h1
        have hd : ∀ w ∈ schemaVersionsV1, w ∉ schemaVersionsV2 := by decide
        exact fun hmem => hd v hmem
      simp [classifyVersions, if_pos h1, ih hrest, Except.map,
        List.filter_cons, h1, h2]
    · by_cases h2 : v ∈ schemaVersionsV2
      · simp [classifyVersions, if_neg h1, if_pos h2, ih hrest,
          Except.map, List.filter_cons, h1, h2]
      · exact absurd (by simp [findLineage, h1, h2]) hv

/-- If some identifier of `vs` is registered in neither lineage,
classification fails with an unknown-version error carrying an
unregistered identifier. -/
theorem classifyVersions_unregistered (vs : List String)
    (h : ∃ v ∈ vs, findLineage v = none) :
    ∃ w, classifyVersions vs = .error (.unknown w) ∧ findLineage w = none := by
  induction vs with
  | nil => obtain ⟨v, hv, _⟩ := h; exact absurd hv (List.not_mem_nil v)
  | cons v rest ih =>
    obtain ⟨w0, hw0mem, hw0⟩ := h
    by_cases h1 : v ∈ schemaVersionsV1
    · have hwrest : w0 ∈ rest := by
        cases List.mem_cons.mp hw0mem with
        | inl heq =>
          subst heq
          simp [findLineage, h1] at hw0
        | inr hr => exact hr
      obtain ⟨w, hw, hwnone⟩ := ih ⟨w0, hwrest, hw0⟩
      exact ⟨w, by simp only [classifyVersions, if_pos h1, hw, Except.map],
        hwnone⟩
    · by_cases h2 : v ∈ schemaVersionsV2
      · have hwrest : w0 ∈ rest := by
          cases List.mem_cons.mp hw0mem with
          | inl heq =>
            subst heq
            simp [findLineage, h1, h2] at hw0
          | inr hr => exact hr
        obtain ⟨w, hw, hwnone⟩ := ih ⟨w0, hwrest, hw0⟩
        exact ⟨w,
          by simp only [classifyVersions, if_neg h1, if_pos h2, hw,
            Except.map], hwnone⟩
      · exact ⟨v, by simp only [classifyVersions, if_neg h1, if_neg h2],
          by simp [findLineage, h1, h2]⟩

/-- C4, amended: when every identifier in the batch is registered,
a batch spanning both lineages fails with the incompatibility error
enumerating the identifiers observed in each lineage group; and a batch
holding any identifier unregistered in both lineages fails with the
distinct unknown-version error (the unknown-version check takes
priority over the incompatibility check). -/
theorem getLatest_error_kinds :
    (∀ cfgs : List SkaffoldConfig,
      (∀ c ∈ cfgs, findLineage c.apiVersion ≠ none) →
      (∃ c ∈ cfgs, c.apiVersion ∈ schemaVersionsV1) →
      (∃ c ∈ cfgs, c.apiVersion ∈ schemaVersionsV2) →
      getLatestFromCompatibilityCheck cfgs =
        .error (.incompatible
          ((cfgs.map SkaffoldConfig.apiVersion).filter
            (fun v => decide (v ∈ schemaVersionsV1)))
          ((cfgs.map SkaffoldConfig.apiVersion).filter
            (fun v => decide (v ∈ schemaVersionsV2))))) ∧
    (∀ cfgs : List SkaffoldConfig,
      (∃ c ∈ cfgs, findLineage c.apiVersion = none) →
      ∃ w, getLatestFromCompatibilityCheck cfgs = .error (.unknown w) ∧
        findLineage w = none) := by
  constructor
  · intro cfgs hreg h1 h2
    have hall : ∀ v ∈ cfgs.map SkaffoldConfig.apiVersion, findLineage v ≠ none := by
      intro v hv
      obtain ⟨c, hc, rfl⟩ := List.mem_map.mp hv
      exact hreg c hc
    have hclass := classifyVersions_all_registered _ hall
    obtain ⟨c1, hc1, hm1⟩ := h1
    obtain ⟨c2, hc2, hm2⟩ := h2
    have hf1 : c1.apiVersion ∈
        (cfgs.map SkaffoldConfig.apiVersion).filter
          (fun v => decide (v ∈ schemaVersionsV1)) :=
      List.mem_filter.mpr ⟨List.mem_map_of_mem _ hc1, by simp [hm1]⟩
    have hf2 : c2.apiVersion ∈
        (cfgs.map SkaffoldConfig.apiVersion).filter
          (fun v => decide (v ∈ schemaVersionsV2)) :=
      List.mem_filter.mpr ⟨List.mem_map_of_mem _ hc2, by simp [hm2]⟩
    unfold getLatestFromCompatibilityCheck
    rw [hclass]
    cases he1 : (cfgs.map SkaffoldConfig.apiVersion).filter
        (fun v => decide (v ∈ schemaVersionsV1)) with
    | nil => rw [he1] at hf1; exact absurd hf1 (List.not_mem_nil _)
    | cons a as =>
      cases he2 : (cfgs.map SkaffoldConfig.apiVersion).filter
          (fun v => decide (v ∈ schemaVersionsV2)) with
      | nil => rw [he2] at hf2; exact absurd hf2 (List.not_mem_nil _)
      | cons b bs => rfl
  · intro cfgs h
    obtain ⟨c, hc, hnone⟩ := h
    obtain ⟨w, hw, hwnone⟩ := classifyVersions_unregistered
      (cfgs.map SkaffoldConfig.apiVersion)
      ⟨c.apiVersion, List.mem_map_of_mem _ hc, hnone⟩
    refine ⟨w, ?_, hwnone⟩
    unfold getLatestFromCompatibilityCheck
    rw [hw]

theorem getLatest_error_kinds_witness :
    (∀ c ∈ ([⟨"skaffold/v1alpha1", Body.modern []⟩,
             ⟨"skaffold/v3alpha1", Body.modern []⟩] :
        List SkaffoldConfig), findLineage c.apiVersion ≠ none) ∧
    getLatestFromCompatibilityCheck
      [⟨"skaffold/v1alpha1", Body.modern []⟩,
       ⟨"skaffold/v3alpha1", Body.modern []⟩] =
      .error (.incompatible ["skaffold/v1alpha1"] ["skaffold/v3alpha1"]) ∧
    (∃ w, getLatestFromCompatibilityCheck
        [⟨"skaffold/vXalphaY", Body.modern []⟩] = .error (.unknown w) ∧
      findLineage w = none) :=
  ⟨by decide,
   getLatest_error_kinds.1
     [⟨"skaffold/v1alpha1", Body.modern []⟩,
      ⟨"skaffold/v3alpha1", Body.modern []⟩]
     (by decide)
     ⟨⟨"skaffold/v1alpha1", Body.modern []⟩, by decide, by decide⟩
     ⟨⟨"skaffold/v3alpha1", Body.modern []⟩, by decide, by decide⟩,
   getLatest_error_kinds.2
     [⟨"skaffold/vXalphaY", Body.modern []⟩]
     ⟨⟨"skaffold/vXalphaY", Body.modern []⟩, by decide, by decide⟩⟩

/-- C4, counterexample: a batch holding identifiers of both lineages plus
one unregistered identifier fails with the unknown-version error, not the
incompatibility error — so "fails with an incompatibility error whenever
the batch contains identifiers from both lineages" does not hold as
stated. -/
theorem getLatest_mixed_with_unknown_counterexample :
    hasBothLineages
      [⟨"skaffold/v1alpha1", Body.modern []⟩,
       ⟨"skaffold/v3alpha1", Body.modern []⟩,
       ⟨"skaffold/vXalphaY", Body.modern []⟩] = true ∧
    getLatestFromCompatibilityCheck
      [⟨"skaffold/v1alpha1", Body.modern []⟩,
       ⟨"skaffold/v3alpha1", Body.modern []⟩,
       ⟨"skaffold/vXalphaY", Body.modern []⟩] =
      .error (.unknown "skaffold/vXalphaY") ∧
    isIncompatibleErr (getLatestFromCompatibilityCheck
      [⟨"skaffold/v1alpha1", Body.modern []⟩,
       ⟨"skaffold/v3alpha1", Body.modern []⟩,
       ⟨"skaffold/vXalphaY", Body.modern []⟩]) = false := by
  exact ⟨rfl, rfl, rfl⟩

/-- A per-document offence of the explicit-target compatibility check
(spec 4.5): membership in the wrong lineage, or being strictly newer than
the requested target ("cannot downgrade"), two distinct conditions. -/
inductive Offense where
  | wrongLineage (v : String) : Offense
  | cannotDowngrade (v : String) : Offense
deriving DecidableEq

/-- Errors of the explicit-target compatibility check: an unknown target
identifier, or a single aggregated error reporting every offending
document by identifier. -/
inductive TargetErr where
  | unknownTarget (v : String) : TargetErr
  | incompatible (offs : List Offense) : TargetErr
deriving DecidableEq

/-- Modelled from the spec: classify one document identifier against a
target located at position `tIdx` of lineage `L`: a document from outside
`L` is a lineage mismatch; a document of `L` strictly later than the
target cannot downgrade; otherwise the document is acceptable. -/
def offenseFor (L : Lineage) (tIdx : Nat) (v : String) : Option Offense :=
  if v ∈ versionsOf L then
    if tIdx < (versionsOf L).indexOf v then some (.cannotDowngrade v)
    else none
  else some (.wrongLineage v)

/-- The offending documents of a batch against a target, reported by
identifier in batch order. -/
def offenseListOf (cfgs : List SkaffoldConfig) (L : Lineage) (tIdx : Nat) :
    List Offense :=
  cfgs.filterMap fun c => offenseFor L tIdx c.apiVersion

/-- Modelled from the spec: the explicit-target compatibility check
(spec 4.5, 4.6 `IsCompatibleWith`): determine the target's lineage, then
verify every document's identifier belongs to that lineage and is not more
recent than the target; all offenders are reported in one aggregated
error.  Performs no upgrade. -/
def isCompatibleWith (cfgs : List SkaffoldConfig) (target : String) :
    Except TargetErr Unit :=
  match findLineage target with
  | none => .error (.unknownTarget target)
  | some (L, tIdx) =>
    match offenseListOf cfgs L tIdx with
    | [] => .ok ()
    | o :: os => .error (.incompatible (o :: os))

/-- `n` successive single-step upgrades. -/
def iterateUpgrade : Nat → SkaffoldConfig → Except UpgradeErr SkaffoldConfig
  | 0, c => .ok c
  | n + 1, c => (upgrade c).bind (iterateUpgrade n)

/-- Errors of `upgradeTo`: a compatibility failure of the batch against
the target, or a failing single upgrade step. -/
inductive UpgradeToErr where
  | compat (e : TargetErr) : UpgradeToErr
  | step (e : UpgradeErr) : UpgradeToErr
deriving DecidableEq

/-- Modelled from the spec: `UpgradeTo` (spec 4.6) applies single-step
upgrades to every document in the batch until each reaches the target
identifier; it fails per the compatibility rules of spec 4.5 (lineage
mismatch or "cannot downgrade") if any document is incompatible with the
target, without touching any input document. -/
def upgradeTo (cfgs : List SkaffoldConfig) (target : String) :
    Except UpgradeToErr (List SkaffoldConfig) :=
  match findLineage target with
  | none => .error (.compat (.unknownTarget target))
  | some (L, tIdx) =>
    match isCompatibleWith cfgs target with
    | .error e => .error (.compat e)
    | .ok _ =>
      Except.mapError UpgradeToErr.step
        (cfgs.mapM fun c =>
          iterateUpgrade (tIdx - (versionsOf L).indexOf c.apiVersion) c)

/-- C5: whenever some document of the batch comes from the other lineage
or is strictly newer than the target, both `isCompatibleWith` and
`upgradeTo` fail with the single aggregated error listing the offenders by
identifier; wrong-lineage documents are reported as lineage mismatches,
documents newer than the target as the distinct "cannot downgrade"
condition. -/
theorem isCompatibleWith_rejects (cfgs : List SkaffoldConfig)
    (target : String) (L : Lineage) (tIdx : Nat) (c0 : SkaffoldConfig)
    (htarget : findLineage target = some (L, tIdx))
    (hc0 : c0 ∈ cfgs)
    (hbad : c0.apiVersion ∉ versionsOf L ∨
      (c0.apiVersion ∈ versionsOf L ∧
        tIdx < (versionsOf L).indexOf c0.apiVersion)) :
    isCompatibleWith cfgs target =
      .error (.incompatible (offenseListOf cfgs L tIdx)) ∧
    upgradeTo cfgs target =
      .error (.compat (.incompatible (offenseListOf cfgs L tIdx))) ∧
    (∀ c ∈ cfgs, c.apiVersion ∉ versionsOf L →
      Offense.wrongLineage c.apiVersion ∈ offenseListOf cfgs L tIdx) ∧
    (∀ c ∈ cfgs, c.apiVersion ∈ versionsOf L →
      tIdx < (versionsOf L).indexOf c.apiVersion →
      Offense.cannotDowngrade c.apiVersion ∈ offenseListOf cfgs L tIdx) ∧
    (∀ v w, Offense.cannotDowngrade v ≠ Offense.wrongLineage w) := by
  have hoff : ∃ o, offenseFor L tIdx c0.apiVersion = some o := by
    cases hbad with
    | inl hnot => exact ⟨.wrongLineage c0.apiVersion, by simp [offenseFor, hnot]⟩
    | inr hnew =>
      exact ⟨.cannotDowngrade c0.apiVersion,
        by simp [offenseFor, hnew.1, hnew.2]⟩
  obtain ⟨o, ho⟩ := hoff
  have homem : o ∈ offenseListOf cfgs L tIdx :=
    List.mem_filterMap.mpr ⟨c0, hc0, ho⟩
  have hne : offenseListOf cfgs L tIdx ≠ [] := by
    intro hnil
    rw [hnil] at homem
    exact List.not_mem_nil o homem
  have hcompat : isCompatibleWith cfgs target =
      .error (.incompatible (offenseListOf cfgs L tIdx)) := by
    obtain ⟨a, as, hl⟩ := List.exists_cons_of_ne_nil hne
    unfold isCompatibleWith
    rw [htarget]
    show (match offenseListOf cfgs L tIdx with
      | [] => Except.ok ()
      | o :: os => Except.error (TargetErr.incompatible (o :: os))) =
      Except.error (TargetErr.incompatible (offenseListOf cfgs L tIdx))
    rw [hl]
  refine ⟨hcompat, ?_, ?_, ?_, ?_⟩
  · unfold upgradeTo
    rw [htarget, hcompat]
  · intro c hc hnot
    exact List.mem_filterMap.mpr ⟨c, hc, by simp [offenseFor, hnot]⟩
  · intro c hc hmem hlt
    exact List.mem_filterMap.mpr ⟨c, hc, by simp [offenseFor, hmem, hlt]⟩
  · intro v w h
    exact Offense.noConfusion h

theorem isCompatibleWith_rejects_witness :
    isCompatibleWith [⟨"skaffold/v2beta29", Body.modern []⟩]
        "skaffold/v1alpha1" =
      .error (.incompatible
        (offenseListOf [⟨"skaffold/v2beta29", Body.modern []⟩]
          Lineage.v1 0)) ∧
    upgradeTo [⟨"skaffold/v2beta29", Body.modern []⟩]
        "skaffold/v1alpha1" =
      .error (.compat (.incompatible
        (offenseListOf [⟨"skaffold/v2beta29", Body.modern []⟩]
          Lineage.v1 0))) := by
  have h := isCompatibleWith_rejects
    [⟨"skaffold/v2beta29", Body.modern []⟩] "skaffold/v1alpha1"
    Lineage.v1 0 ⟨"skaffold/v2beta29", Body.modern []⟩
    (by decide) (by decide) (Or.inr ⟨by decide, by decide⟩)
  exact ⟨h.1, h.2.1⟩

/-- Modelled from the spec: the raw (pre-decode) body of one document of
the Raw Document Batch — either the oldest-era artifact syntax (flat
historically-named `dockerfilePath` fields, as pairs of image name and
dockerfile path), the modern artifact syntax, or unrecognizable text. -/
inductive RawBody where
  | oldStyle (arts : List (String × String)) : RawBody
  | modernStyle (arts : List (String × String)) : RawBody
  | malformed : RawBody
deriving DecidableEq

/-- A raw document: an optionally declared Version Identifier and a raw
body. -/
structure RawDoc where
  apiVersion : Option String
  body : RawBody
deriving DecidableEq

/-- The error kinds of the parse front end (spec 7). -/
inductive ParseErr where
  | missingVersion : ParseErr
  | unknownVersion (v : String) : ParseErr
  | decodeMismatch (v : String) : ParseErr
  | malformedInput : ParseErr
  | upgradeFailure (e : UpgradeErr) : ParseErr
deriving DecidableEq

/-- Modelled from the spec: the Document Decoder (spec 4.3) decodes raw
bytes into the shape registered for the given identifier, failing with a
decode mismatch when the bytes do not conform to that version's shape and
with a malformed-input error on unrecognizable text. -/
def decodeBody (v : String) (b : RawBody) : Except ParseErr Body :=
  match b with
  | .malformed => .error .malformedInput
  | .oldStyle arts =>
    if v = "skaffold/v1alpha1" then
      .ok (.old (arts.map fun p => ⟨p.1, p.2⟩))
    else .error (.decodeMismatch v)
  | .modernStyle arts =>
    if v = "skaffold/v1alpha1" then .error (.decodeMismatch v)
    else .ok (.modern (arts.map fun p => ⟨p.1, p.2⟩))

/-- Modelled from the spec: parse one raw document (spec 4.3, 7): a
document with no resolvable Version Identifier (absent or empty) fails
with the missing-version error; a present but unregistered identifier
fails with the distinct unknown-version error; otherwise the body is
decoded at the declared identifier's registered shape. -/
def parseDocument (d : RawDoc) : Except ParseErr SkaffoldConfig :=
  match d.apiVersion with
  | none => .error .missingVersion
  | some v =>
    if v = "" then .error .missingVersion
    else
      match findLineage v with
      | none => .error (.unknownVersion v)
      | some _ => (decodeBody v d.body).map fun b => ⟨v, b⟩

/-- Modelled from the spec: the Upgrade Chain Runner (spec 4.4) applies
single-step upgrades until the document reaches the terminal version of
its lineage; the number of steps is the distance from the document's
position to the end of its lineage's version list. -/
def runUpgradeChain (c : SkaffoldConfig) : Except ParseErr SkaffoldConfig :=
  match findLineage c.apiVersion with
  | none => .error (.unknownVersion c.apiVersion)
  | some (L, i) =>
    Except.mapError ParseErr.upgradeFailure
      (iterateUpgrade ((versionsOf L).length - 1 - i) c)

/-- Modelled from the spec (section 9's open question, resolved the way
the test surface shows): the top-level parse entry point bridges the two
lineages via a special-cased final transform — a document that has reached
the old lineage's terminal version is carried over to the first version of
the new lineage and chain-upgraded to the new lineage's terminal. -/
def bridgeLineages (c : SkaffoldConfig) : Except ParseErr SkaffoldConfig :=
  if c.apiVersion = terminalOf .v1 then
    runUpgradeChain ⟨"skaffold/v3alpha1", c.body⟩
  else .ok c

/-- Decode one raw document and upgrade it to the current canonical
version. -/
def processDoc (d : RawDoc) : Except ParseErr SkaffoldConfig :=
  (parseDocument d).bind fun c => (runUpgradeChain c).bind bridgeLineages

/-- Modelled from the spec: `ParseConfigAndUpgrade` (spec 4.6) decodes
every document of the batch at its declared identifier, chain-upgrades
each document independently, preserves the original document order, and
fails as a whole when any single document fails. -/
def parseConfigAndUpgrade :
    List RawDoc → Except ParseErr (List SkaffoldConfig)
  | [] => .ok []
  | d :: rest =>
    (processDoc d).bind fun c =>
      (parseConfigAndUpgrade rest).map fun cs => c :: cs

/-- C7: a document with an empty or absent version identifier fails with
the missing-version error; a document with an identifier registered in
neither lineage fails with the distinct unknown-version error and is
never accepted (in particular never treated as already latest). -/
theorem parseDocument_version_errors :
    (∀ b : RawBody, parseDocument ⟨none, b⟩ = .error .missingVersion) ∧
    (∀ b : RawBody, parseDocument ⟨some "", b⟩ = .error .missingVersion) ∧
    (∀ (b : RawBody) (v : String), v ≠ "" → findLineage v = none →
      parseDocument ⟨some v, b⟩ = .error (.unknownVersion v) ∧
      ParseErr.unknownVersion v ≠ ParseErr.missingVersion ∧
      ∀ c : SkaffoldConfig, parseDocument ⟨some v, b⟩ ≠ .ok c) := by
  refine ⟨fun b => rfl, fun b => rfl, ?_⟩
  intro b v hne hnone
  have hp : parseDocument ⟨some v, b⟩ = .error (.unknownVersion v) := by
    simp [parseDocument, hne, hnone]
  refine ⟨hp, fun h => ParseErr.noConfusion h, ?_⟩
  intro c hc
  rw [hp] at hc
  exact Except.noConfusion hc

theorem parseDocument_version_errors_witness :
    parseDocument ⟨some "skaffold/v1beta100", RawBody.modernStyle []⟩ =
      .error (.unknownVersion "skaffold/v1beta100") ∧
    ParseErr.unknownVersion "skaffold/v1beta100" ≠
      ParseErr.missingVersion :=
  ⟨(parseDocument_version_errors.2.2 (RawBody.modernStyle [])
      "skaffold/v1beta100" (by decide) (by decide)).1,
   (parseDocument_version_errors.2.2 (RawBody.modernStyle [])
      "skaffold/v1beta100" (by decide) (by decide)).2.1⟩

/-- A successful parse processes the documents pointwise and in the
original order. -/
theorem parseConfigAndUpgrade_ok_pointwise (docs : List RawDoc) :
    ∀ out, parseConfigAndUpgrade docs = .ok out →
      List.Forall₂ (fun d c => processDoc d = .ok c) docs out := by
  induction docs with
  | nil =>
    intro out h
    cases h
    exact List.Forall₂.nil
  | cons d rest ih =>
    intro out h
    unfold parseConfigAndUpgrade at h
    cases hpd : processDoc d with
    | error e =>
      rw [hpd] at h
      simp only [Except.bind] at h
      exact Except.noConfusion h
    | ok c =>
      rw [hpd] at h
      simp only [Except.bind] at h
      cases hpr : parseConfigAndUpgrade rest with
      | error e =>
        rw [hpr] at h
        simp only [Except.map] at h
        exact Except.noConfusion h
      | ok cs =>
        rw [hpr] at h
        simp only [Except.map] at h
        cases h
        exact List.Forall₂.cons hpd (ih cs hpr)

/-- If any member of the batch fails to process, the whole parse fails. -/
theorem parseConfigAndUpgrade_member_error (docs : List RawDoc)
    (d : RawDoc) (e : ParseErr) (hmem : d ∈ docs)
    (hd : processDoc d = .error e) :
    ∃ e', parseConfigAndUpgrade docs = .error e' := by
  induction docs with
  | nil => exact absurd hmem (List.not_mem_nil d)
  | cons d0 rest ih =>
    cases hpd : processDoc d0 with
    | error e0 =>
      refine ⟨e0, ?_⟩
      unfold parseConfigAndUpgrade
      rw [hpd]
      rfl
    | ok c =>
      cases List.mem_cons.mp hmem with
      | inl heq =>
        subst heq
        rw [hpd] at hd
        exact Except.noConfusion hd
      | inr hr =>
        obtain ⟨e', he'⟩ := ih hr
        refine ⟨e', ?_⟩
        unfold parseConfigAndUpgrade
        rw [hpd, he']
        rfl

/-- The test file's "Old minimal config": a document authored for the
oldest version of the old lineage, giving a container build via the
historically-named flat dockerfile field. -/
def oldMinimalDoc : RawDoc :=
  ⟨some "skaffold/v1alpha1", .oldStyle [("example", "Dockerfile")]⟩

/-- The semantically equivalent document authored for the current
version, giving the same container build via the modern nested field. -/
def modernMinimalDoc : RawDoc :=
  ⟨some "skaffold/v4beta1", .modernStyle [("example", "Dockerfile")]⟩

/-- The canonical document both of the above upgrade to. -/
def canonicalMinimal : SkaffoldConfig :=
  ⟨"skaffold/v4beta1", .modern [⟨"example", "Dockerfile"⟩]⟩

/-- C6: `parseConfigAndUpgrade` returns the fully-upgraded documents in
the original order; the whole call fails when any single document fails
to decode or upgrade; and the two semantically equivalent documents
authored against the oldest historical version and against the current
version converge to structurally identical canonical documents. -/
theorem parseConfigAndUpgrade_spec :
    (∀ docs out, parseConfigAndUpgrade docs = .ok out →
      List.Forall₂ (fun d c => processDoc d = .ok c) docs out) ∧
    (∀ docs (d : RawDoc) (e : ParseErr), d ∈ docs →
      processDoc d = .error e →
      ∃ e', parseConfigAndUpgrade docs = .error e') ∧
    (parseConfigAndUpgrade [oldMinimalDoc] =
        parseConfigAndUpgrade [modernMinimalDoc] ∧
      parseConfigAndUpgrade [oldMinimalDoc] = .ok [canonicalMinimal] ∧
      canonicalMinimal.apiVersion = terminalOf Lineage.v2) :=
  ⟨fun docs out h => parseConfigAndUpgrade_ok_pointwise docs out h,
   fun docs d e hmem hd =>
     parseConfigAndUpgrade_member_error docs d e hmem hd,
   rfl, rfl, rfl⟩

theorem parseConfigAndUpgrade_spec_witness :
    List.Forall₂ (fun d c => processDoc d = .ok c) [modernMinimalDoc]
      [canonicalMinimal] ∧
    ∃ e', parseConfigAndUpgrade [(⟨none, RawBody.malformed⟩ : RawDoc)] =
      .error e' :=
  ⟨parseConfigAndUpgrade_spec.1 [modernMinimalDoc] [canonicalMinimal] rfl,
   parseConfigAndUpgrade_spec.2.1 [⟨none, RawBody.malformed⟩]
     ⟨none, RawBody.malformed⟩ ParseErr.missingVersion
     (List.mem_singleton.mpr rfl) rfl⟩

/-- Every document a successful parse outputs is canonical: it is at the
terminal version of the new lineage and carries a modern-shaped body. -/
theorem processDoc_canonical (d : RawDoc) (c : SkaffoldConfig)
    (h : processDoc d = .ok c) :
    c.apiVersion = terminalOf Lineage.v2 ∧ ∃ arts, c.body = .modern arts := by
  obtain ⟨ver, rb⟩ := d
  cases ver with
  | none => exact Except.noConfusion h
  | some v =>
    by_cases hv0 : v = ""
    · subst hv0
      exact Except.noConfusion h
    · cases hm : findLineage v with
      | none =>
        simp only [processDoc, parseDocument, hv0, hm, if_neg hv0] at h
        exact Except.noConfusion h
      | some p =>
        have hmem : v ∈ schemaVersionsV1 ∨ v ∈ schemaVersionsV2 := by
          by_cases h1 : v ∈ schemaVersionsV1
          · exact .inl h1
          · by_cases h2 : v ∈ schemaVersionsV2
            · exact .inr h2
            · rw [findLineage, if_neg h1, if_neg h2] at hm
              exact Option.noConfusion hm
        simp only [schemaVersionsV1, schemaVersionsV2, List.mem_cons,
          List.mem_singleton, List.not_mem_nil, or_false] at hmem
        rcases hmem with (rfl|rfl|rfl|rfl|rfl|rfl|rfl)|(rfl|rfl) <;>
          cases rb with
          | malformed => exact Except.noConfusion h
          | oldStyle arts =>
            first
            | exact Except.noConfusion h
            | · obtain rfl := (Except.ok.inj h).symm
                exact ⟨rfl, _, rfl⟩
          | modernStyle arts =>
            first
            | exact Except.noConfusion h
            | · obtain rfl := (Except.ok.inj h).symm
                exact ⟨rfl, _, rfl⟩

/-- One key/value token of the serialized textual form of a document. -/
inductive YamlTok where
  | field (key value : String) : YamlTok
deriving DecidableEq

/-- Error of re-decoding a serialized document. -/
inductive MarshalErr where
  | malformedToks : MarshalErr
deriving DecidableEq

/-- Serialize a modern artifact list, one image/dockerfile field pair per
artifact. -/
def marshalModernArts : List ArtifactModern → List YamlTok
  | [] => []
  | a :: rest =>
    .field "image" a.image :: .field "dockerfile" a.dockerfile ::
      marshalModernArts rest

/-- Serialize an old-style artifact list, using the historical
`dockerfilePath` field name. -/
def marshalOldArts : List ArtifactOld → List YamlTok
  | [] => []
  | a :: rest =>
    .field "image" a.image :: .field "dockerfilePath" a.dockerfilePath ::
      marshalOldArts rest

/-- Modelled from the spec: serialize a document back to the textual
format it was decoded from (spec 6, serialization round-trip): the
declared identifier, the type marker, and the version-shaped artifact
fields. -/
def marshalConfig (c : SkaffoldConfig) : List YamlTok :=
  .field "apiVersion" c.apiVersion :: .field "kind" "Config" ::
    (match c.body with
     | .old arts => marshalOldArts arts
     | .modern arts => marshalModernArts arts)

/-- Parse a serialized modern artifact list. -/
def parseModernArts : List YamlTok → Option (List ArtifactModern)
  | [] => some []
  | .field k1 i :: .field k2 df :: rest =>
    if k1 = "image" ∧ k2 = "dockerfile" then
      (parseModernArts rest).map fun as => ⟨i, df⟩ :: as
    else none
  | _ => none

/-- Parse a serialized old-style artifact list. -/
def parseOldArts : List YamlTok → Option (List ArtifactOld)
  | [] => some []
  | .field k1 i :: .field k2 df :: rest =>
    if k1 = "image" ∧ k2 = "dockerfilePath" then
      (parseOldArts rest).map fun as => ⟨i, df⟩ :: as
    else none
  | _ => none

/-- Modelled from the spec: decode a serialized document again: the
envelope must declare the type marker and an identifier, and the artifact
fields are decoded at the shape registered for the declared identifier. -/
def unmarshalConfig : List YamlTok → Except MarshalErr SkaffoldConfig
  | .field k1 v :: .field k2 k3 :: rest =>
    if k1 = "apiVersion" ∧ k2 = "kind" ∧ k3 = "Config" then
      if v = "skaffold/v1alpha1" then
        match parseOldArts rest with
        | some arts => .ok ⟨v, .old arts⟩
        | none => .error .malformedToks
      else
        match parseModernArts rest with
        | some arts => .ok ⟨v, .modern arts⟩
        | none => .error .malformedToks
    else .error .malformedToks
  | _ => .error .malformedToks

/-- Parsing a serialized modern artifact list recovers it exactly. -/
theorem parseModernArts_marshal (arts : List ArtifactModern) :
    parseModernArts (marshalModernArts arts) = some arts := by
  induction arts with
  | nil => rfl
  | cons a rest ih => simp [marshalModernArts, parseModernArts, ih]

/-- Serializing any modern-bodied document at a version other than the
oldest one and decoding it again recovers the document exactly. -/
theorem unmarshal_marshal_modern (v : String) (arts : List ArtifactModern)
    (hv : v ≠ "skaffold/v1alpha1") :
    unmarshalConfig (marshalConfig ⟨v, .modern arts⟩) =
      .ok ⟨v, .modern arts⟩ := by
  simp [marshalConfig, unmarshalConfig, hv, parseModernArts_marshal]

/-- A right member of a `Forall₂` relation has a related left partner. -/
theorem forall₂_exists_left {R : RawDoc → SkaffoldConfig → Prop} :
    ∀ {ds : List RawDoc} {cs : List SkaffoldConfig},
      List.Forall₂ R ds cs → ∀ c ∈ cs, ∃ d, R d c := by
  intro ds cs h
  induction h with
  | nil =>
    intro c hc
    exact absurd hc (List.not_mem_nil c)
  | @cons a b as bs h1 h2 ih =>
    intro c hc
    cases List.mem_cons.mp hc with
    | inl heq => exact ⟨a, by rw [heq]; exact h1⟩
    | inr hr => exact ih c hr

/-- C8: every canonical document produced by `parseConfigAndUpgrade`
serializes to the textual token form and decodes back to a structurally
equal document (byte-for-byte equality of the serialized text is not
claimed). -/
theorem marshalConfig_roundtrip (docs : List RawDoc)
    (cs : List SkaffoldConfig) (c : SkaffoldConfig)
    (hp : parseConfigAndUpgrade docs = .ok cs) (hc : c ∈ cs) :
    unmarshalConfig (marshalConfig c) = .ok c := by
  obtain ⟨d, hd⟩ :=
    forall₂_exists_left (parseConfigAndUpgrade_ok_pointwise docs cs hp) c hc
  obtain ⟨hver, arts, hbody⟩ := processDoc_canonical d c hd
  obtain ⟨v, b⟩ := c
  simp only at hver hbody
  subst hbody
  have hvne : v ≠ "skaffold/v1alpha1" := by
    rw [hver]
    decide
  exact unmarshal_marshal_modern v arts hvne

theorem marshalConfig_roundtrip_witness :
    unmarshalConfig (marshalConfig canonicalMinimal) =
      .ok canonicalMinimal :=
  marshalConfig_roundtrip [modernMinimalDoc] [canonicalMinimal]
    canonicalMinimal rfl (List.mem_singleton.mpr rfl)

/- ## Part 2: the Cloud Run deployer, translated from
pkg/skaffold/deploy/cloudrun/deploy.go -/

/-- A build artifact handed to the deployer (graph.Artifact): only the
image name is inspected by the checked prefix of `deployToCloudRun`. -/
structure GraphArtifact where
  imageName : String
deriving DecidableEq

/-- The outcomes of the artifact-validation prefix of `deployToCloudRun`
(deploy.go lines 97-111): the "Too many artifacts" error, the
"Unsupported Repository" error, or — in this total embedding — a marker
for the out-of-range slice access `artifacts[0]` that the Go code
performs unconditionally after the length guard. -/
inductive CloudRunDeployErr where
  | tooManyArtifacts : CloudRunDeployErr
  | indexOutOfRange : CloudRunDeployErr
  | unsupportedRepository : CloudRunDeployErr
deriving DecidableEq

/-- Go's `strings.Contains` on character lists: whether `pat` occurs as a
contiguous substring. -/
def charsContain (pat : List Char) : List Char → Bool
  | [] => pat.isEmpty
  | c :: rest => pat.isPrefixOf (c :: rest) || charsContain pat rest

/-- Go's `strings.Contains s sub`. -/
def goContains (s sub : String) : Bool :=
  charsContain sub.data s.data

/-- The artifact-validation prefix of `deployToCloudRun` (deploy.go lines
97-111): reject more than one artifact, then read `artifacts[0]`
unconditionally (total embedding: the empty slice yields the
out-of-range marker instead of a runtime panic), then reject an image
name that mentions `docker.pkg.dev` without mentioning `gcr.io`; an
accepted artifact proceeds to the deployment steps. -/
def deployToCloudRunValidate (artifacts : List GraphArtifact) :
    Except CloudRunDeployErr GraphArtifact :=
  if artifacts.length > 1 then .error .tooManyArtifacts
  else
    match artifacts[0]? with
    | none => .error .indexOutOfRange
    | some artifact =>
      if !goContains artifact.imageName "gcr.io" &&
          goContains artifact.imageName "docker.pkg.dev" then
        .error .unsupportedRepository
      else .ok artifact

/-- C9: the guard of `deployToCloudRun` only rejects artifact lists of
length greater than one; the empty list passes the guard, and the
unconditional read of `artifacts[0]` is then out of bounds (the total
embedding's index returns `none`), so the guard does not make the
indexing safe. -/
theorem deployToCloudRun_empty_out_of_range :
    ¬ (([] : List GraphArtifact).length > 1) ∧
    ([] : List GraphArtifact)[0]? = none ∧
    deployToCloudRunValidate [] = .error .indexOutOfRange :=
  ⟨by decide, rfl, rfl⟩

/-- C10: on a single-artifact batch, `deployToCloudRun` reports the
"Unsupported Repository" error exactly when the image name mentions
`docker.pkg.dev` and does not mention `gcr.io`; an image name mentioning
neither registry is accepted and proceeds to deployment. -/
theorem deployToCloudRun_repository_check (a : GraphArtifact) :
    (deployToCloudRunValidate [a] = .error .unsupportedRepository ↔
      goContains a.imageName "docker.pkg.dev" = true ∧
        goContains a.imageName "gcr.io" = false) ∧
    (goContains a.imageName "docker.pkg.dev" = false →
      goContains a.imageName "gcr.io" = false →
      deployToCloudRunValidate [a] = .ok a) := by
  constructor
  · constructor
    · intro h
      by_cases hg : goContains a.imageName "gcr.io"
      · simp [deployToCloudRunValidate, hg] at h
      · by_cases hd : goContains a.imageName "docker.pkg.dev"
        · exact ⟨hd, by simp [hg]⟩
        · simp [deployToCloudRunValidate, hg, hd] at h
    · intro ⟨hd, hg⟩
      simp [deployToCloudRunValidate, hd, hg]
  · intro hd hg
    simp [deployToCloudRunValidate, hd, hg]

theorem deployToCloudRun_repository_check_witness :
    goContains "example.com/my-image" "docker.pkg.dev" = false ∧
    goContains "example.com/my-image" "gcr.io" = false ∧
    deployToCloudRunValidate [⟨"example.com/my-image"⟩] =
      .ok ⟨"example.com/my-image"⟩ :=
  ⟨rfl, rfl,
    (deployToCloudRun_repository_check ⟨"example.com/my-image"⟩).2 rfl rfl⟩
